import Mathlib

/-!
Verification of the terraced-terrain core (`terraced_terrain.py`, `themes.py`,
`flat_terraced_terrain.py`, `spherical_terraced_terrain.py`).

Machine floats of the source are idealized as exact rationals (ℚ) everywhere
except the spherical normal computations, which need square roots and are
modelled over ℝ.  Heights, cutting levels, thresholds and interpolation
parameters are rationals; `np.arange`, Python `int()` and Python `round`
are embedded as exact functions on ℚ.
-/

set_option maxHeartbeats 1000000

/-- Python `int()` applied to a rational: truncation toward zero. -/
def pyInt (q : ℚ) : ℤ := if 0 ≤ q then ⌊q⌋ else ⌈q⌉

/-- `np.arange(start, stop, step)` for a positive `step`:
the values `start + i*step` for `0 ≤ i < ⌈(stop-start)/step⌉`. -/
def arange (start stop step : ℚ) : List ℚ :=
  (List.range (⌈(stop - start) / step⌉).toNat).map
    fun i : ℕ => start + (i : ℚ) * step

/-- `h_min` of `meandering_triangles` (lines 15-16 of
`terraced_terrain.py`): `np.floor(min(li))` with
`li = [int(h_*10) for h_ in (h1, h2, h3)]`; the floor of an integer is the
integer itself. -/
def levelsLow (h1 h2 h3 : ℚ) : ℤ :=
  min (pyInt (h1 * 10)) (min (pyInt (h2 * 10)) (pyInt (h3 * 10)))

/-- `h_max` (line 17): `np.floor(max(li))`. -/
def levelsHigh (h1 h2 h3 : ℚ) : ℤ :=
  max (pyInt (h1 * 10)) (max (pyInt (h2 * 10)) (pyInt (h3 * 10)))

/-- Cutting levels visited by `meandering_triangles` (lines 15-20):
`for h in np.arange(h_min, h_max + 1, 0.5): h *= 0.1`. -/
def levels (h1 h2 h3 : ℚ) : List ℚ :=
  (arange (levelsLow h1 h2 h3 : ℚ) ((levelsHigh h1 h2 h3 : ℚ) + 1)
    (1/2)).map fun h => h * (1/10)

/-- The list `[val for val in [h1, h2, h3] if val > h]` (line 24). -/
def aboveList (h1 h2 h3 h : ℚ) : List ℚ :=
  [h1, h2, h3].filter fun v => decide (h < v)

/-- Number of vertices strictly above the cutting plane (`points_above`). -/
def pointsAbove (h1 h2 h3 h : ℚ) : ℕ := (aboveList h1 h2 h3 h).length

/-- Vertex reordering of the `match` statement (lines 24-41): on the list of
heights above the plane, one above rotates via the `x == h1` / `x == h2`
comparisons, two above via `x == h2 and y == h3` / `x == h1 and y == h3`;
all other shapes leave the triangle unchanged. -/
def reorder3 {α : Type} (v1 v2 v3 : α) (h1 h2 h3 h : ℚ) : α × α × α :=
  match aboveList h1 h2 h3 h with
  | [x] =>
      if x = h1 then (v2, v3, v1)
      else if x = h2 then (v3, v1, v2)
      else (v1, v2, v3)
  | [x, y] =>
      if x = h2 ∧ y = h3 then (v2, v3, v1)
      else if x = h1 ∧ y = h3 then (v3, v1, v2)
      else (v1, v2, v3)
  | _ => (v1, v2, v3)

/-- Interpolation parameter (lines 67 and 72):
`t = 0 if (denom := ha - hb) == 0 else (ha - h) / denom`. -/
def tval (ha hb h : ℚ) : ℚ := if ha - hb = 0 then 0 else (ha - h) / (ha - hb)

/-- A 3D point with rational coordinates (flat embedding). -/
structure Pt3 where
  x : ℚ
  y : ℚ
  z : ℚ
deriving DecidableEq, Repr

/-- Linear interpolation `start + (end - start) * t` (lines 125-131),
componentwise on points. -/
def lerpPt (s e : Pt3) (t : ℚ) : Pt3 :=
  ⟨s.x + (e.x - s.x) * t, s.y + (e.y - s.y) * t, s.z + (e.z - s.z) * t⟩

/-- Convex combination `(1-t)*a + t*b` of two points, componentwise. -/
def mixPt (a b : Pt3) (t : ℚ) : Pt3 :=
  ⟨(1 - t) * a.x + t * b.x, (1 - t) * a.y + t * b.y, (1 - t) * a.z + t * b.z⟩

/-- One operation on the mesh buffer accumulator: appending `n` vertex
records to the vertex stream, or appending one index to the index stream.
The attribute payload of a record (position, color, normal, uv) does not
matter for the buffer-bookkeeping claims and is elided; each record is
counted. -/
inductive MOp : Type
  | pushVerts (n : ℕ)
  | pushIdx (i : ℕ)
deriving DecidableEq, Repr

/-- Buffer operations of `add_triangle` (lines 104-107): 3 vertex records,
then indices `offset, offset+1, offset+2`. -/
def addTriangleOps (off : ℕ) : List MOp :=
  [.pushVerts 3, .pushIdx off, .pushIdx (off + 1), .pushIdx (off + 2)]

/-- Buffer operations of `add_step_roof` (lines 109-115): 4 vertex records,
then the two index triples `(0,1,2)` and `(2,3,0)` relative to `offset`. -/
def addStepRoofOps (off : ℕ) : List MOp :=
  [.pushVerts 4, .pushIdx off, .pushIdx (off + 1), .pushIdx (off + 2),
   .pushIdx (off + 2), .pushIdx (off + 3), .pushIdx off]

/-- Buffer operations of `add_step_wall` (lines 117-123): 4 vertex records,
then the two index triples `(0,1,3)` and `(1,2,3)` relative to `offset`. -/
def addStepWallOps (off : ℕ) : List MOp :=
  [.pushVerts 4, .pushIdx off, .pushIdx (off + 1), .pushIdx (off + 3),
   .pushIdx (off + 1), .pushIdx (off + 2), .pushIdx (off + 3)]

/-- State threaded through the level loop of `meandering_triangles`:
the current (possibly reordered) heights of the triangle's vertices, the
running `vertex_cnt`, the running `index_offset`, and the trace of buffer
operations performed so far. -/
structure SState where
  h1 : ℚ
  h2 : ℚ
  h3 : ℚ
  vcnt : ℕ
  off : ℕ
  trace : List MOp
deriving DecidableEq, Repr

/-- Body of the level loop (lines 21-100).  Classify, reorder, then emit:
3 above → one roof triangle (+3 vertices); 2 above → roof quad then wall
quad at `offset+4` (+8 vertices); 1 above → roof triangle then wall quad at
`offset+3` (+7 vertices); 0 above → nothing.  The projected positions and
edge points feed only the elided record payloads. -/
def levelStep (s : SState) (h : ℚ) : SState :=
  if pointsAbove s.h1 s.h2 s.h3 h = 3 then
    ⟨(reorder3 s.h1 s.h2 s.h3 s.h1 s.h2 s.h3 h).1,
     (reorder3 s.h1 s.h2 s.h3 s.h1 s.h2 s.h3 h).2.1,
     (reorder3 s.h1 s.h2 s.h3 s.h1 s.h2 s.h3 h).2.2,
     s.vcnt + 3, s.off + 3, s.trace ++ addTriangleOps s.off⟩
  else if pointsAbove s.h1 s.h2 s.h3 h = 2 then
    ⟨(reorder3 s.h1 s.h2 s.h3 s.h1 s.h2 s.h3 h).1,
     (reorder3 s.h1 s.h2 s.h3 s.h1 s.h2 s.h3 h).2.1,
     (reorder3 s.h1 s.h2 s.h3 s.h1 s.h2 s.h3 h).2.2,
     s.vcnt + 8, s.off + 8,
     s.trace ++ (addStepRoofOps s.off ++ addStepWallOps (s.off + 4))⟩
  else if pointsAbove s.h1 s.h2 s.h3 h = 1 then
    ⟨(reorder3 s.h1 s.h2 s.h3 s.h1 s.h2 s.h3 h).1,
     (reorder3 s.h1 s.h2 s.h3 s.h1 s.h2 s.h3 h).2.1,
     (reorder3 s.h1 s.h2 s.h3 s.h1 s.h2 s.h3 h).2.2,
     s.vcnt + 7, s.off + 7,
     s.trace ++ (addTriangleOps s.off ++ addStepWallOps (s.off + 3))⟩
  else
    ⟨(reorder3 s.h1 s.h2 s.h3 s.h1 s.h2 s.h3 h).1,
     (reorder3 s.h1 s.h2 s.h3 s.h1 s.h2 s.h3 h).2.1,
     (reorder3 s.h1 s.h2 s.h3 s.h1 s.h2 s.h3 h).2.2,
     s.vcnt, s.off, s.trace⟩

/-- One slicing pass of `meandering_triangles` over all cutting levels,
starting from heights `h1, h2, h3` and index offset `off0`, with
`vertex_cnt = 0` and empty buffers. -/
def meanderingRun (h1 h2 h3 : ℚ) (off0 : ℕ) : SState :=
  (levels h1 h2 h3).foldl levelStep ⟨h1, h2, h3, 0, off0, []⟩

/-- Return value of `meandering_triangles` (line 102): the final
`vertex_cnt`. -/
def meanderingCount (h1 h2 h3 : ℚ) (off0 : ℕ) : ℕ :=
  (meanderingRun h1 h2 h3 off0).vcnt

/-- Total number of vertex records appended by a trace of buffer
operations. -/
def vertsIn : List MOp → ℕ
  | [] => 0
  | .pushVerts n :: t => n + vertsIn t
  | .pushIdx _ :: t => vertsIn t

/-- Indices appended by a trace, in order. -/
def idxList : List MOp → List ℕ
  | [] => []
  | .pushVerts _ :: t => idxList t
  | .pushIdx i :: t => i :: idxList t

/-- Given `v` vertex records already present, does every index appended by
the trace reference a record already appended at that moment? -/
def traceOK (v : ℕ) : List MOp → Bool
  | [] => true
  | .pushVerts n :: t => traceOK (v + n) t
  | .pushIdx i :: t => decide (i < v) && traceOK v t

/-- Vertices appended per level by classification: 3 for a 3-above level,
8 for 2-above, 7 for 1-above, 0 otherwise. -/
def levelWeight (pa : ℕ) : ℕ :=
  if pa = 3 then 3 else if pa = 2 then 8 else if pa = 1 then 7 else 0

/-- Number of visited levels classified as `k`-above (classification on the
original heights; it only depends on their multiset). -/
def countLevels (h1 h2 h3 : ℚ) (k : ℕ) : ℕ :=
  (levels h1 h2 h3).countP fun h => decide (pointsAbove h1 h2 h3 h = k)

/-- Rounding half to even (Python `round`, banker's rounding), idealized on
exact rationals. -/
def roundHalfEven (x : ℚ) : ℤ :=
  if x - ⌊x⌋ < 1/2 then ⌊x⌋
  else if 1/2 < x - ⌊x⌋ then ⌊x⌋ + 1
  else if Even ⌊x⌋ then ⌊x⌋ else ⌊x⌋ + 1

/-- Python `round(q, 2)`. -/
def pyRound2 (q : ℚ) : ℚ := (roundHalfEven (q * 100) : ℚ) / 100

/-- An rgba color with components in the 0-1 range. -/
structure Rgba where
  r : ℚ
  g : ℚ
  b : ℚ
  a : ℚ
deriving DecidableEq, Repr

/-- Color normalization of `Theme.__init__` (line 9 of `themes.py`):
`[round(v / 255, 2) for v in rgba]`. -/
def normRgba (v : ℤ × ℤ × ℤ × ℤ) : Rgba :=
  ⟨pyRound2 ((v.1 : ℚ) / 255), pyRound2 ((v.2.1 : ℚ) / 255),
   pyRound2 ((v.2.2.1 : ℚ) / 255), pyRound2 ((v.2.2.2 : ℚ) / 255)⟩

/-- A theme: the six ordered layers `LAYER_01 .. LAYER_06`, each a color,
with the five finite thresholds of layers 1-5 (`LAYER_06`'s threshold is
`None`). -/
structure Theme where
  c1 : Rgba
  c2 : Rgba
  c3 : Rgba
  c4 : Rgba
  c5 : Rgba
  c6 : Rgba
  t1 : ℚ
  t2 : ℚ
  t3 : ℚ
  t4 : ℚ
  t5 : ℚ
deriving DecidableEq, Repr

/-- A raw layer as written in a theme class body: integer rgba plus a finite
threshold. -/
structure RawLayer where
  rgba : ℤ × ℤ × ℤ × ℤ
  threshold : ℚ
deriving DecidableEq, Repr

/-- Theme construction (`Theme.__init__`): normalize each layer's color;
thresholds are stored as given.  The construction performs no checks. -/
def mkTheme (l1 l2 l3 l4 l5 : RawLayer) (rgba6 : ℤ × ℤ × ℤ × ℤ) : Theme :=
  ⟨normRgba l1.rgba, normRgba l2.rgba, normRgba l3.rgba, normRgba l4.rgba,
   normRgba l5.rgba, normRgba rgba6,
   l1.threshold, l2.threshold, l3.threshold, l4.threshold, l5.threshold⟩

/-- `Theme.color` (lines 16-29 of `themes.py`): first layer whose threshold
is `>= z` (the code tests `z <= threshold`), else the unbounded `LAYER_06`. -/
def Theme.color (th : Theme) (z : ℚ) : Rgba :=
  if z ≤ th.t1 then th.c1
  else if z ≤ th.t2 then th.c2
  else if z ≤ th.t3 then th.c3
  else if z ≤ th.t4 then th.c4
  else if z ≤ th.t5 then th.c5
  else th.c6

/-- Band index (1-6) of the layer `Theme.color` returns, following the same
scan. -/
def Theme.colorIdx (th : Theme) (z : ℚ) : ℕ :=
  if z ≤ th.t1 then 1
  else if z ≤ th.t2 then 2
  else if z ≤ th.t3 then 3
  else if z ≤ th.t4 then 4
  else if z ≤ th.t5 then 5
  else 6

/-- Threshold of layer `i` (1-5). -/
def Theme.thresh (th : Theme) : ℕ → ℚ
  | 1 => th.t1
  | 2 => th.t2
  | 3 => th.t3
  | 4 => th.t4
  | _ => th.t5

/-- Color of layer `i` (1-6). -/
def Theme.layerColor (th : Theme) : ℕ → Rgba
  | 1 => th.c1
  | 2 => th.c2
  | 3 => th.c3
  | 4 => th.c4
  | 5 => th.c5
  | _ => th.c6

/-- Are the five finite thresholds strictly increasing? -/
def ThresholdsMono (th : Theme) : Prop :=
  th.t1 < th.t2 ∧ th.t2 < th.t3 ∧ th.t3 < th.t4 ∧ th.t4 < th.t5

instance (th : Theme) : Decidable (ThresholdsMono th) := by
  unfold ThresholdsMono; infer_instance

/-- The `Mountain` theme class. -/
def mountainTheme : Theme :=
  mkTheme ⟨(25, 47, 96, 255), 68/100⟩ ⟨(38, 73, 157, 255), 73/100⟩
    ⟨(111, 84, 54, 255), 75/100⟩ ⟨(0, 51, 25, 255), 88/100⟩
    ⟨(0, 102, 49, 255), 1⟩ (0, 133, 54, 255)

/-- The `Snow` theme class. -/
def snowTheme : Theme :=
  mkTheme ⟨(3, 51, 102, 255), 58/100⟩ ⟨(38, 73, 157, 255), 68/100⟩
    ⟨(130, 205, 221, 255), 73/100⟩ ⟨(102, 102, 102, 255), 88/100⟩
    ⟨(51, 51, 51, 255), 96/100⟩ (255, 255, 255, 255)

/-- The `Desert` theme class. -/
def desertTheme : Theme :=
  mkTheme ⟨(237, 209, 142, 255), 52/100⟩ ⟨(237, 210, 143, 255), 62/100⟩
    ⟨(250, 197, 89, 255), 78/100⟩ ⟨(153, 96, 49, 255), 88/100⟩
    ⟨(108, 53, 36, 255), 1⟩ (51, 39, 16, 255)

/-- The `Island` theme class. -/
def islandTheme : Theme :=
  mkTheme ⟨(0, 104, 183, 255), 0⟩ ⟨(255, 247, 153, 255), 15/100⟩
    ⟨(128, 120, 92, 255), 22/100⟩ ⟨(0, 102, 46, 255), 4/10⟩
    ⟨(0, 128, 57, 255), 96/100⟩ (0, 163, 88, 255)

/-- The global `themes` registry, filled by `__init_subclass__` with each
theme class keyed by its lowercased class name, in definition order. -/
def themesRegistry : List (String × Theme) :=
  [("mountain", mountainTheme), ("snow", snowTheme),
   ("desert", desertTheme), ("island", islandTheme)]

/-- `themes.get(name)`: dictionary lookup returning `None` when the key is
absent. -/
def themesGet (name : String) : Option Theme :=
  (themesRegistry.find? fun p => p.1 == name).map fun p => p.2

/-- Python `str.lower()`, characterwise (all registry keys are ASCII). -/
def pyLower (s : String) : String := String.mk (s.data.map Char.toLower)

/-- `FlatTerracedTerrain.__init__` theme resolution (line 50 of
`flat_terraced_terrain.py`): `self.theme = themes.get(theme.lower())`. -/
def flatInitTheme (theme : String) : Option Theme := themesGet (pyLower theme)

/-- `SphericalTerracedTerrain.__init__` theme resolution (line 50 of
`spherical_terraced_terrain.py`), identical lookup. -/
def sphericalInitTheme (theme : String) : Option Theme :=
  themesGet (pyLower theme)

/-- `FlatTerracedTerrainMixin.get_color` when the stored theme may be
`None`: `self.theme.color(thresh)` succeeds only on a present theme; on
`None` the attribute access fails at first use, modelled as `none`. -/
def getColorOpt (t : Option Theme) (z : ℚ) : Option Rgba :=
  t.map fun th => th.color z

/-- Rational square root, exact whenever the argument is the square of a
rational (numerator and denominator are then perfect squares).  All square
roots taken in this development are of such squares; the normal-policy
claims compare which vector a normal is derived from, not its numeric
length. -/
def ratSqrt (q : ℚ) : ℚ := (Nat.sqrt q.num.toNat : ℚ) / (Nat.sqrt q.den : ℚ)

/-- A 3D vector with rational coordinates for the embedding-strategy record
emitters. -/
structure V3 where
  x : ℚ
  y : ℚ
  z : ℚ
deriving DecidableEq, Repr

/-- Vector subtraction. -/
def V3.sub (a b : V3) : V3 := ⟨a.x - b.x, a.y - b.y, a.z - b.z⟩

/-- Vector addition. -/
def V3.add (a b : V3) : V3 := ⟨a.x + b.x, a.y + b.y, a.z + b.z⟩

/-- Scalar multiple. -/
def V3.smul (a : V3) (c : ℚ) : V3 := ⟨a.x * c, a.y * c, a.z * c⟩

/-- Cross product, `a.cross(b)`. -/
def V3.cross (a b : V3) : V3 :=
  ⟨a.y * b.z - a.z * b.y, a.z * b.x - a.x * b.z, a.x * b.y - a.y * b.x⟩

/-- Euclidean length, `v.length()`. -/
def V3.len (v : V3) : ℚ := ratSqrt (v.x ^ 2 + v.y ^ 2 + v.z ^ 2)

/-- `v.normalized()`; on the zero vector panda3d returns the zero vector,
matched here by division by zero yielding zero. -/
def V3.normalized (v : V3) : V3 :=
  ⟨v.x / v.len, v.y / v.len, v.z / v.len⟩

/-- `calculate_quad_normal` (lines 133-147 of `terraced_terrain.py`): split
the quad into its two triangles, cross each, average, normalize. -/
def calcQuadNormal (p0 p1 p2 p3 : V3) : V3 :=
  let d10 := p1.sub p0
  let d20 := p3.sub p0
  let d12 := p3.sub p2
  let d22 := p1.sub p2
  let total := (d20.cross d10).add (d22.cross d12)
  (total.smul (1/2)).normalized

/-- Spherical `create_triangle_vertices` (lines 204-212): per emitted vertex
the position `vert * self.scale` and the normal `vert.normalized()` (color
and uv elided, they do not bear on the normal claims). -/
def sphTriangleRecords (v0 v1 v2 : V3) (scale : ℚ) : List (V3 × V3) :=
  [v0, v1, v2].map fun vert => (vert.smul scale, vert.normalized)

/-- Spherical `create_quad_vertices` (lines 214-225): the normal is the quad
normal when `wall` and otherwise `vert.normalized()` per vertex; the
position is `vert * self.scale`. -/
def sphQuadRecords (v0 v1 v2 v3 : V3) (scale : ℚ) (wall : Bool) :
    List (V3 × V3) :=
  let qn := calcQuadNormal v0 v1 v2 v3
  [v0, v1, v2, v3].map fun vert =>
    (vert.smul scale, if wall then qn else vert.normalized)

/-- Flat `create_quad_vertices` (lines 179-185): normal is the quad normal
when `wall` and the fixed `Vec3(0, 0, 1)` otherwise; the position is the
vertex itself. -/
def flatQuadRecords (v0 v1 v2 v3 : V3) (wall : Bool) : List (V3 × V3) :=
  let n := if wall then calcQuadNormal v0 v1 v2 v3 else V3.mk 0 0 1
  [v0, v1, v2, v3].map fun vert => (vert, n)

/-- Modelled from the spec claim's words (for comparison with `levels`,
which is translated from the source): cutting levels spanning exactly the
closed interval from `floor(10*h_min)/10` to `floor(10*h_max)/10`
inclusive, ascending, spaced `0.05`. -/
def claimedLevels (h1 h2 h3 : ℚ) : List ℚ :=
  let lo : ℤ := ⌊10 * min h1 (min h2 h3)⌋
  let hi : ℤ := ⌊10 * max h1 (max h2 h3)⌋
  (List.range (2 * (hi - lo).toNat + 1)).map
    fun k : ℕ => (lo : ℚ) / 10 + (k : ℚ) * (1/20)

/-- A theme whose five finite thresholds are strictly decreasing, fed to the
theme constructor to probe for validation. -/
def badTheme : Theme :=
  mkTheme ⟨(10, 20, 30, 255), 9/10⟩ ⟨(10, 20, 30, 255), 1/2⟩
    ⟨(10, 20, 30, 255), 3/10⟩ ⟨(10, 20, 30, 255), 1/5⟩
    ⟨(10, 20, 30, 255), 1/10⟩ (0, 0, 0, 255)

/-- Helper lemmas about the classification and reordering. -/
theorem pointsAbove_ite (h1 h2 h3 h : ℚ) :
    pointsAbove h1 h2 h3 h =
      (if h < h1 then 1 else 0) + (if h < h2 then 1 else 0) +
        (if h < h3 then 1 else 0) := by
  unfold pointsAbove aboveList
  by_cases c1 : h < h1 <;> by_cases c2 : h < h2 <;> by_cases c3 : h < h3 <;>
    simp [List.filter_cons, c1, c2, c3]

theorem reorder3_100 {α : Type} (v1 v2 v3 : α) {h1 h2 h3 h : ℚ}
    (c1 : h < h1) (c2 : ¬ h < h2) (c3 : ¬ h < h3) :
    reorder3 v1 v2 v3 h1 h2 h3 h = (v2, v3, v1) := by
  have hl : aboveList h1 h2 h3 h = [h1] := by
    simp [aboveList, List.filter_cons, c1, c2, c3]
  unfold reorder3; rw [hl]; simp

theorem reorder3_010 {α : Type} (v1 v2 v3 : α) {h1 h2 h3 h : ℚ}
    (c1 : ¬ h < h1) (c2 : h < h2) (c3 : ¬ h < h3) :
    reorder3 v1 v2 v3 h1 h2 h3 h = (v3, v1, v2) := by
  have hl : aboveList h1 h2 h3 h = [h2] := by
    simp [aboveList, List.filter_cons, c1, c2, c3]
  have ne : ¬ (h2 = h1) := fun e => absurd (e ▸ c2) c1
  unfold reorder3; rw [hl]; simp [ne]

theorem reorder3_001 {α : Type} (v1 v2 v3 : α) {h1 h2 h3 h : ℚ}
    (c1 : ¬ h < h1) (c2 : ¬ h < h2) (c3 : h < h3) :
    reorder3 v1 v2 v3 h1 h2 h3 h = (v1, v2, v3) := by
  have hl : aboveList h1 h2 h3 h = [h3] := by
    simp [aboveList, List.filter_cons, c1, c2, c3]
  have ne1 : ¬ (h3 = h1) := fun e => absurd (e ▸ c3) c1
  have ne2 : ¬ (h3 = h2) := fun e => absurd (e ▸ c3) c2
  unfold reorder3; rw [hl]; simp [ne1, ne2]

theorem reorder3_110 {α : Type} (v1 v2 v3 : α) {h1 h2 h3 h : ℚ}
    (c1 : h < h1) (c2 : h < h2) (c3 : ¬ h < h3) :
    reorder3 v1 v2 v3 h1 h2 h3 h = (v1, v2, v3) := by
  have hl : aboveList h1 h2 h3 h = [h1, h2] := by
    simp [aboveList, List.filter_cons, c1, c2, c3]
  have ne1 : ¬ (h2 = h3) := fun e => absurd (e ▸ c2) c3
  unfold reorder3; rw [hl]; simp [ne1]

theorem reorder3_101 {α : Type} (v1 v2 v3 : α) {h1 h2 h3 h : ℚ}
    (c1 : h < h1) (c2 : ¬ h < h2) (c3 : h < h3) :
    reorder3 v1 v2 v3 h1 h2 h3 h = (v3, v1, v2) := by
  have hl : aboveList h1 h2 h3 h = [h1, h3] := by
    simp [aboveList, List.filter_cons, c1, c2, c3]
  have ne1 : ¬ (h1 = h2) := fun e => absurd (e ▸ c1) c2
  unfold reorder3; rw [hl]; simp [ne1]

theorem reorder3_011 {α : Type} (v1 v2 v3 : α) {h1 h2 h3 h : ℚ}
    (c1 : ¬ h < h1) (c2 : h < h2) (c3 : h < h3) :
    reorder3 v1 v2 v3 h1 h2 h3 h = (v2, v3, v1) := by
  have hl : aboveList h1 h2 h3 h = [h2, h3] := by
    simp [aboveList, List.filter_cons, c1, c2, c3]
  unfold reorder3; rw [hl]; simp

theorem reorder3_111 {α : Type} (v1 v2 v3 : α) {h1 h2 h3 h : ℚ}
    (c1 : h < h1) (c2 : h < h2) (c3 : h < h3) :
    reorder3 v1 v2 v3 h1 h2 h3 h = (v1, v2, v3) := by
  have hl : aboveList h1 h2 h3 h = [h1, h2, h3] := by
    simp [aboveList, List.filter_cons, c1, c2, c3]
  unfold reorder3; rw [hl]

theorem reorder3_000 {α : Type} (v1 v2 v3 : α) {h1 h2 h3 h : ℚ}
    (c1 : ¬ h < h1) (c2 : ¬ h < h2) (c3 : ¬ h < h3) :
    reorder3 v1 v2 v3 h1 h2 h3 h = (v1, v2, v3) := by
  have hl : aboveList h1 h2 h3 h = [] := by
    simp [aboveList, List.filter_cons, c1, c2, c3]
  unfold reorder3; rw [hl]

/-- C2, counterexample: for the triangle with heights `(2, 0, 0)` at level
`h = 1` exactly one vertex is above, and the code's reordering makes the
first vertex a vertex of height `0`, which is not above the plane — the
above vertex is not rotated into first position as the claim states. -/
theorem reorder_one_above_counterexample :
    pointsAbove 2 0 0 1 = 1 ∧
      (reorder3 (Pt3.mk 1 1 1, (2 : ℚ)) (Pt3.mk 2 2 2, (0 : ℚ))
          (Pt3.mk 3 3 3, (0 : ℚ)) 2 0 0 1).1 = (Pt3.mk 2 2 2, (0 : ℚ)) ∧
      ¬ ((1 : ℚ) < (reorder3 (Pt3.mk 1 1 1, (2 : ℚ)) (Pt3.mk 2 2 2, (0 : ℚ))
          (Pt3.mk 3 3 3, (0 : ℚ)) 2 0 0 1).1.2) := by
  refine ⟨by decide, by decide, by decide⟩

/-- C2 (amended): at every cutting level the code's reordering is a cyclic
rotation of the triangle; if exactly 1 vertex is above, the rotation puts
the above vertex last (`v3`), and if exactly 2 are above, it puts the below
vertex last (`v3`). -/
theorem reorder_canonicalization (p1 p2 p3 : Pt3) (h1 h2 h3 h : ℚ) :
    (reorder3 (p1, h1) (p2, h2) (p3, h3) h1 h2 h3 h =
        ((p1, h1), (p2, h2), (p3, h3)) ∨
      reorder3 (p1, h1) (p2, h2) (p3, h3) h1 h2 h3 h =
        ((p2, h2), (p3, h3), (p1, h1)) ∨
      reorder3 (p1, h1) (p2, h2) (p3, h3) h1 h2 h3 h =
        ((p3, h3), (p1, h1), (p2, h2))) ∧
    (pointsAbove h1 h2 h3 h = 1 →
      h < (reorder3 (p1, h1) (p2, h2) (p3, h3) h1 h2 h3 h).2.2.2 ∧
      (reorder3 (p1, h1) (p2, h2) (p3, h3) h1 h2 h3 h).1.2 ≤ h ∧
      (reorder3 (p1, h1) (p2, h2) (p3, h3) h1 h2 h3 h).2.1.2 ≤ h) ∧
    (pointsAbove h1 h2 h3 h = 2 →
      (reorder3 (p1, h1) (p2, h2) (p3, h3) h1 h2 h3 h).2.2.2 ≤ h ∧
      h < (reorder3 (p1, h1) (p2, h2) (p3, h3) h1 h2 h3 h).1.2 ∧
      h < (reorder3 (p1, h1) (p2, h2) (p3, h3) h1 h2 h3 h).2.1.2) := by
  by_cases c1 : h < h1 <;> by_cases c2 : h < h2 <;> by_cases c3 : h < h3
  · rw [reorder3_111 (p1, h1) (p2, h2) (p3, h3) c1 c2 c3]
    exact ⟨Or.inl rfl,
      fun hpa => absurd hpa (by simp [pointsAbove_ite, c1, c2, c3]),
      fun hpa => absurd hpa (by simp [pointsAbove_ite, c1, c2, c3])⟩
  · rw [reorder3_110 (p1, h1) (p2, h2) (p3, h3) c1 c2 c3]
    exact ⟨Or.inl rfl,
      fun hpa => absurd hpa (by simp [pointsAbove_ite, c1, c2, c3]),
      fun _ => ⟨le_of_not_lt c3, c1, c2⟩⟩
  · rw [reorder3_101 (p1, h1) (p2, h2) (p3, h3) c1 c2 c3]
    exact ⟨Or.inr (Or.inr rfl),
      fun hpa => absurd hpa (by simp [pointsAbove_ite, c1, c2, c3]),
      fun _ => ⟨le_of_not_lt c2, c3, c1⟩⟩
  · rw [reorder3_100 (p1, h1) (p2, h2) (p3, h3) c1 c2 c3]
    exact ⟨Or.inr (Or.inl rfl),
      fun _ => ⟨c1, le_of_not_lt c2, le_of_not_lt c3⟩,
      fun hpa => absurd hpa (by simp [pointsAbove_ite, c1, c2, c3])⟩
  · rw [reorder3_011 (p1, h1) (p2, h2) (p3, h3) c1 c2 c3]
    exact ⟨Or.inr (Or.inl rfl),
      fun hpa => absurd hpa (by simp [pointsAbove_ite, c1, c2, c3]),
      fun _ => ⟨le_of_not_lt c1, c2, c3⟩⟩
  · rw [reorder3_010 (p1, h1) (p2, h2) (p3, h3) c1 c2 c3]
    exact ⟨Or.inr (Or.inr rfl),
      fun _ => ⟨c2, le_of_not_lt c3, le_of_not_lt c1⟩,
      fun hpa => absurd hpa (by simp [pointsAbove_ite, c1, c2, c3])⟩
  · rw [reorder3_001 (p1, h1) (p2, h2) (p3, h3) c1 c2 c3]
    exact ⟨Or.inl rfl,
      fun _ => ⟨c3, le_of_not_lt c1, le_of_not_lt c2⟩,
      fun hpa => absurd hpa (by simp [pointsAbove_ite, c1, c2, c3])⟩
  · rw [reorder3_000 (p1, h1) (p2, h2) (p3, h3) c1 c2 c3]
    exact ⟨Or.inl rfl,
      fun hpa => absurd hpa (by simp [pointsAbove_ite, c1, c2, c3]),
      fun hpa => absurd hpa (by simp [pointsAbove_ite, c1, c2, c3])⟩

/-- Witness for `reorder_canonicalization` at the triangle with heights
`(2, 0, 0)` and level `1` (one vertex above): the above vertex lands
last. -/
theorem reorder_canonicalization_witness :
    pointsAbove 2 0 0 1 = 1 ∧
      (1 : ℚ) < (reorder3 (Pt3.mk 1 1 1, (2 : ℚ)) (Pt3.mk 2 2 2, (0 : ℚ))
        (Pt3.mk 3 3 3, (0 : ℚ)) 2 0 0 1).2.2.2 :=
  ⟨by decide,
    ((reorder_canonicalization (Pt3.mk 1 1 1) (Pt3.mk 2 2 2) (Pt3.mk 3 3 3)
      2 0 0 1).2.1 (by decide)).1⟩

/-- C7: when the two endpoint heights of an edge coincide the interpolation
parameter is `0` (no division is attempted) and the interpolated edge point
collapses to the non-interpolated endpoint `start`; the slicer never skips
a triangle for this reason, being total in the heights. -/
theorem tval_degenerate_edge (ha hb h : ℚ) (heq : ha = hb) :
    tval ha hb h = 0 ∧ ∀ a b : Pt3, lerpPt a b (tval ha hb h) = a := by
  subst heq
  have ht : tval ha ha h = 0 := by simp [tval]
  refine ⟨ht, fun a b => ?_⟩
  rw [ht]
  cases a
  simp [lerpPt]

/-- Witness for `tval_degenerate_edge` at `ha = hb = 1`, `h = 5`, and two
concrete points. -/
theorem tval_degenerate_edge_witness :
    tval 1 1 5 = 0 ∧
      lerpPt (Pt3.mk 1 2 3) (Pt3.mk 4 5 6) (tval 1 1 5) = Pt3.mk 1 2 3 :=
  ⟨(tval_degenerate_edge 1 1 5 rfl).1,
    (tval_degenerate_edge 1 1 5 rfl).2 (Pt3.mk 1 2 3) (Pt3.mk 4 5 6)⟩

/-- Linear interpolation is the same point as the convex combination, for
every parameter. -/
theorem lerpPt_eq_mixPt (a b : Pt3) (t : ℚ) : lerpPt a b t = mixPt a b t := by
  unfold lerpPt mixPt
  simp only [Pt3.mk.injEq]
  refine ⟨by ring, by ring, by ring⟩

/-- Bounds for the interpolation parameter when the first endpoint is above
the plane and the second is not (`hb ≤ h < ha`). -/
theorem tval_bounds_above {ha hb h : ℚ} (hle : hb ≤ h) (hlt : h < ha) :
    ha - hb ≠ 0 ∧ 0 ≤ tval ha hb h ∧ tval ha hb h ≤ 1 := by
  have hd : 0 < ha - hb := by linarith
  have hne : ha - hb ≠ 0 := ne_of_gt hd
  refine ⟨hne, ?_, ?_⟩
  · rw [tval, if_neg hne]
    exact div_nonneg (by linarith) (le_of_lt hd)
  · rw [tval, if_neg hne]
    rw [div_le_one hd]
    linarith

/-- Bounds for the interpolation parameter when the first endpoint is below
the plane and the second is above (`ha ≤ h < hb`). -/
theorem tval_bounds_below {ha hb h : ℚ} (hle : ha ≤ h) (hlt : h < hb) :
    ha - hb ≠ 0 ∧ 0 ≤ tval ha hb h ∧ tval ha hb h ≤ 1 := by
  have hd : 0 < hb - ha := by linarith
  have hne : ha - hb ≠ 0 := by intro e; apply ne_of_gt hd; linarith
  have hrw : (ha - h) / (ha - hb) = (h - ha) / (hb - ha) := by
    rw [show h - ha = -(ha - h) by ring, show hb - ha = -(ha - hb) by ring,
      neg_div_neg_eq]
  refine ⟨hne, ?_, ?_⟩
  · rw [tval, if_neg hne, hrw]
    exact div_nonneg (by linarith) (le_of_lt hd)
  · rw [tval, if_neg hne, hrw]
    rw [div_le_one hd]
    linarith

/-- C9: at every level classified (after the code's reordering) as 1-above
or 2-above, both interpolation denominators are nonzero and both
interpolation parameters lie in `[0, 1]`; every interpolated edge point is
therefore the convex combination, with that parameter, of the two projected
endpoints it is built from. -/
theorem interpolation_params_in_unit_interval (h1 h2 h3 h : ℚ)
    (hpa : pointsAbove h1 h2 h3 h = 1 ∨ pointsAbove h1 h2 h3 h = 2) :
    ((reorder3 h1 h2 h3 h1 h2 h3 h).1 - (reorder3 h1 h2 h3 h1 h2 h3 h).2.2 ≠ 0 ∧
      (reorder3 h1 h2 h3 h1 h2 h3 h).2.1 - (reorder3 h1 h2 h3 h1 h2 h3 h).2.2 ≠ 0) ∧
    (0 ≤ tval (reorder3 h1 h2 h3 h1 h2 h3 h).1 (reorder3 h1 h2 h3 h1 h2 h3 h).2.2 h ∧
      tval (reorder3 h1 h2 h3 h1 h2 h3 h).1 (reorder3 h1 h2 h3 h1 h2 h3 h).2.2 h ≤ 1) ∧
    (0 ≤ tval (reorder3 h1 h2 h3 h1 h2 h3 h).2.1 (reorder3 h1 h2 h3 h1 h2 h3 h).2.2 h ∧
      tval (reorder3 h1 h2 h3 h1 h2 h3 h).2.1 (reorder3 h1 h2 h3 h1 h2 h3 h).2.2 h ≤ 1) ∧
    (∀ a b : Pt3,
      lerpPt a b (tval (reorder3 h1 h2 h3 h1 h2 h3 h).1
          (reorder3 h1 h2 h3 h1 h2 h3 h).2.2 h) =
        mixPt a b (tval (reorder3 h1 h2 h3 h1 h2 h3 h).1
          (reorder3 h1 h2 h3 h1 h2 h3 h).2.2 h) ∧
      lerpPt a b (tval (reorder3 h1 h2 h3 h1 h2 h3 h).2.1
          (reorder3 h1 h2 h3 h1 h2 h3 h).2.2 h) =
        mixPt a b (tval (reorder3 h1 h2 h3 h1 h2 h3 h).2.1
          (reorder3 h1 h2 h3 h1 h2 h3 h).2.2 h)) := by
  have hmix : ∀ a b : Pt3, ∀ t : ℚ, lerpPt a b t = mixPt a b t :=
    fun a b t => lerpPt_eq_mixPt a b t
  by_cases c1 : h < h1 <;> by_cases c2 : h < h2 <;> by_cases c3 : h < h3
  · exact absurd hpa (by simp [pointsAbove_ite, c1, c2, c3])
  · rw [reorder3_110 h1 h2 h3 c1 c2 c3]
    have b1 := tval_bounds_above (le_of_not_lt c3) c1
    have b2 := tval_bounds_above (le_of_not_lt c3) c2
    exact ⟨⟨b1.1, b2.1⟩, b1.2, b2.2, fun a b => ⟨hmix a b _, hmix a b _⟩⟩
  · rw [reorder3_101 h1 h2 h3 c1 c2 c3]
    have b1 := tval_bounds_above (le_of_not_lt c2) c3
    have b2 := tval_bounds_above (le_of_not_lt c2) c1
    exact ⟨⟨b1.1, b2.1⟩, b1.2, b2.2, fun a b => ⟨hmix a b _, hmix a b _⟩⟩
  · rw [reorder3_100 h1 h2 h3 c1 c2 c3]
    have b1 := tval_bounds_below (le_of_not_lt c2) c1
    have b2 := tval_bounds_below (le_of_not_lt c3) c1
    exact ⟨⟨b1.1, b2.1⟩, b1.2, b2.2, fun a b => ⟨hmix a b _, hmix a b _⟩⟩
  · rw [reorder3_011 h1 h2 h3 c1 c2 c3]
    have b1 := tval_bounds_above (le_of_not_lt c1) c2
    have b2 := tval_bounds_above (le_of_not_lt c1) c3
    exact ⟨⟨b1.1, b2.1⟩, b1.2, b2.2, fun a b => ⟨hmix a b _, hmix a b _⟩⟩
  · rw [reorder3_010 h1 h2 h3 c1 c2 c3]
    have b1 := tval_bounds_below (le_of_not_lt c3) c2
    have b2 := tval_bounds_below (le_of_not_lt c1) c2
    exact ⟨⟨b1.1, b2.1⟩, b1.2, b2.2, fun a b => ⟨hmix a b _, hmix a b _⟩⟩
  · rw [reorder3_001 h1 h2 h3 c1 c2 c3]
    have b1 := tval_bounds_below (le_of_not_lt c1) c3
    have b2 := tval_bounds_below (le_of_not_lt c2) c3
    exact ⟨⟨b1.1, b2.1⟩, b1.2, b2.2, fun a b => ⟨hmix a b _, hmix a b _⟩⟩
  · exact absurd hpa (by simp [pointsAbove_ite, c1, c2, c3])

/-- Witness for `interpolation_params_in_unit_interval` at heights
`(2, 0, 0)` and level `1` (one vertex above after reordering). -/
theorem interpolation_params_in_unit_interval_witness :
    0 ≤ tval (reorder3 2 0 0 2 0 0 1).1 (reorder3 2 0 0 2 0 0 1).2.2 1 ∧
      tval (reorder3 2 0 0 2 0 0 1).1 (reorder3 2 0 0 2 0 0 1).2.2 1 ≤ 1 :=
  (interpolation_params_in_unit_interval 2 0 0 1 (Or.inl (by decide))).2.1

/-- Classification is invariant under cyclic rotation of the heights. -/
theorem pointsAbove_rot (a b c h : ℚ) :
    pointsAbove b c a h = pointsAbove a b c h := by
  rw [pointsAbove_ite, pointsAbove_ite]
  ring

/-- The reordering applied to the height triple itself yields one of its
three cyclic rotations. -/
theorem reorder3_rot (a b c h : ℚ) :
    reorder3 a b c a b c h = (a, b, c) ∨ reorder3 a b c a b c h = (b, c, a) ∨
      reorder3 a b c a b c h = (c, a, b) := by
  by_cases c1 : h < a <;> by_cases c2 : h < b <;> by_cases c3 : h < c
  · rw [reorder3_111 a b c c1 c2 c3]; tauto
  · rw [reorder3_110 a b c c1 c2 c3]; tauto
  · rw [reorder3_101 a b c c1 c2 c3]; tauto
  · rw [reorder3_100 a b c c1 c2 c3]; tauto
  · rw [reorder3_011 a b c c1 c2 c3]; tauto
  · rw [reorder3_010 a b c c1 c2 c3]; tauto
  · rw [reorder3_001 a b c c1 c2 c3]; tauto
  · rw [reorder3_000 a b c c1 c2 c3]; tauto

/-- Appending traces: vertex records add up. -/
theorem vertsIn_append (a b : List MOp) :
    vertsIn (a ++ b) = vertsIn a + vertsIn b := by
  induction a with
  | nil => simp [vertsIn]
  | cons op t ih =>
      cases op with
      | pushVerts n =>
          simp [vertsIn, ih]
          omega
      | pushIdx i => simp [vertsIn, ih]

/-- Appending traces: the safety check splits at the boundary, with the
vertex counter advanced by the first part's records. -/
theorem traceOK_append (v : ℕ) (a b : List MOp) :
    traceOK v (a ++ b) = (traceOK v a && traceOK (v + vertsIn a) b) := by
  induction a generalizing v with
  | nil => simp [traceOK, vertsIn]
  | cons op t ih =>
      cases op with
      | pushVerts n =>
          show traceOK (v + n) (t ++ b) =
            (traceOK (v + n) t && traceOK (v + (n + vertsIn t)) b)
          rw [ih (v + n), Nat.add_assoc]
      | pushIdx i =>
          show (decide (i < v) && traceOK v (t ++ b)) =
            ((decide (i < v) && traceOK v t) && traceOK (v + vertsIn t) b)
          rw [ih v, Bool.and_assoc]

/-- The three emitters are safe when called at an offset equal to the
current record count: each appends its records before the indices that
reference them. -/
theorem traceOK_emitters (c : ℕ) :
    traceOK c (addTriangleOps c) = true ∧
      traceOK c (addStepRoofOps c) = true ∧
      traceOK c (addStepWallOps c) = true := by
  refine ⟨?_, ?_, ?_⟩ <;>
    simp [traceOK, addTriangleOps, addStepRoofOps, addStepWallOps]

/-- Record counts of the three emitters. -/
theorem vertsIn_emitters (c : ℕ) :
    vertsIn (addTriangleOps c) = 3 ∧ vertsIn (addStepRoofOps c) = 4 ∧
      vertsIn (addStepWallOps c) = 4 := by
  refine ⟨?_, ?_, ?_⟩ <;> rfl

/-- Classification of the reordered heights agrees with the original
classification at every level. -/
theorem reorder3_pointsAbove (a b c h x : ℚ) :
    pointsAbove (reorder3 a b c a b c h).1 (reorder3 a b c a b c h).2.1
      (reorder3 a b c a b c h).2.2 x = pointsAbove a b c x := by
  rcases reorder3_rot a b c h with hr | hr | hr
  · rw [hr]
  · rw [hr]
    exact pointsAbove_rot a b c x
  · rw [hr]
    exact (pointsAbove_rot b c a x).trans (pointsAbove_rot a b c x)

/-- One level of the slicer: the classification function is preserved, the
vertex counter, index offset and record stream all advance by the weight of
the level's classification, and the trace stays safe when the offset
matches the record count. -/
theorem levelStep_spec (s : SState) (h : ℚ) :
    (∀ x, pointsAbove (levelStep s h).h1 (levelStep s h).h2
        (levelStep s h).h3 x = pointsAbove s.h1 s.h2 s.h3 x) ∧
      (levelStep s h).vcnt =
        s.vcnt + levelWeight (pointsAbove s.h1 s.h2 s.h3 h) ∧
      (levelStep s h).off =
        s.off + levelWeight (pointsAbove s.h1 s.h2 s.h3 h) ∧
      vertsIn (levelStep s h).trace =
        vertsIn s.trace + levelWeight (pointsAbove s.h1 s.h2 s.h3 h) ∧
      (∀ v0 : ℕ, s.off = v0 + vertsIn s.trace → traceOK v0 s.trace = true →
        traceOK v0 (levelStep s h).trace = true) := by
  by_cases hc3 : pointsAbove s.h1 s.h2 s.h3 h = 3
  · have he : levelStep s h =
        ⟨(reorder3 s.h1 s.h2 s.h3 s.h1 s.h2 s.h3 h).1,
         (reorder3 s.h1 s.h2 s.h3 s.h1 s.h2 s.h3 h).2.1,
         (reorder3 s.h1 s.h2 s.h3 s.h1 s.h2 s.h3 h).2.2,
         s.vcnt + 3, s.off + 3, s.trace ++ addTriangleOps s.off⟩ := by
      simp [levelStep, hc3]
    refine ⟨fun x => ?_, ?_, ?_, ?_, fun v0 hoff hok => ?_⟩
    · rw [he]
      exact reorder3_pointsAbove s.h1 s.h2 s.h3 h x
    · rw [he, hc3]
      rfl
    · rw [he, hc3]
      rfl
    · rw [he, hc3, vertsIn_append, (vertsIn_emitters s.off).1]
      rfl
    · rw [he]
      show traceOK v0 (s.trace ++ addTriangleOps s.off) = true
      rw [traceOK_append, hok, ← hoff, Bool.true_and]
      exact (traceOK_emitters s.off).1
  · by_cases hc2 : pointsAbove s.h1 s.h2 s.h3 h = 2
    · have he : levelStep s h =
          ⟨(reorder3 s.h1 s.h2 s.h3 s.h1 s.h2 s.h3 h).1,
           (reorder3 s.h1 s.h2 s.h3 s.h1 s.h2 s.h3 h).2.1,
           (reorder3 s.h1 s.h2 s.h3 s.h1 s.h2 s.h3 h).2.2,
           s.vcnt + 8, s.off + 8,
           s.trace ++ (addStepRoofOps s.off ++ addStepWallOps (s.off + 4))⟩ := by
        simp [levelStep, hc3, hc2]
      refine ⟨fun x => ?_, ?_, ?_, ?_, fun v0 hoff hok => ?_⟩
      · rw [he]
        exact reorder3_pointsAbove s.h1 s.h2 s.h3 h x
      · rw [he, hc2]
        rfl
      · rw [he, hc2]
        rfl
      · rw [he, hc2, vertsIn_append, vertsIn_append,
          (vertsIn_emitters s.off).2.1, (vertsIn_emitters (s.off + 4)).2.2]
        rfl
      · rw [he]
        show traceOK v0
          (s.trace ++ (addStepRoofOps s.off ++ addStepWallOps (s.off + 4))) = true
        rw [traceOK_append, hok, ← hoff, Bool.true_and, traceOK_append,
          (vertsIn_emitters s.off).2.1, (traceOK_emitters s.off).2.1,
          Bool.true_and]
        exact (traceOK_emitters (s.off + 4)).2.2
    · by_cases hc1 : pointsAbove s.h1 s.h2 s.h3 h = 1
      · have he : levelStep s h =
            ⟨(reorder3 s.h1 s.h2 s.h3 s.h1 s.h2 s.h3 h).1,
             (reorder3 s.h1 s.h2 s.h3 s.h1 s.h2 s.h3 h).2.1,
             (reorder3 s.h1 s.h2 s.h3 s.h1 s.h2 s.h3 h).2.2,
             s.vcnt + 7, s.off + 7,
             s.trace ++ (addTriangleOps s.off ++ addStepWallOps (s.off + 3))⟩ := by
          simp [levelStep, hc3, hc2, hc1]
        refine ⟨fun x => ?_, ?_, ?_, ?_, fun v0 hoff hok => ?_⟩
        · rw [he]
          exact reorder3_pointsAbove s.h1 s.h2 s.h3 h x
        · rw [he, hc1]
          rfl
        · rw [he, hc1]
          rfl
        · rw [he, hc1, vertsIn_append, vertsIn_append,
            (vertsIn_emitters s.off).1, (vertsIn_emitters (s.off + 3)).2.2]
          rfl
        · rw [he]
          show traceOK v0
            (s.trace ++ (addTriangleOps s.off ++ addStepWallOps (s.off + 3))) = true
          rw [traceOK_append, hok, ← hoff, Bool.true_and, traceOK_append,
            (vertsIn_emitters s.off).1, (traceOK_emitters s.off).1,
            Bool.true_and]
          exact (traceOK_emitters (s.off + 3)).2.2
      · have he : levelStep s h =
            ⟨(reorder3 s.h1 s.h2 s.h3 s.h1 s.h2 s.h3 h).1,
             (reorder3 s.h1 s.h2 s.h3 s.h1 s.h2 s.h3 h).2.1,
             (reorder3 s.h1 s.h2 s.h3 s.h1 s.h2 s.h3 h).2.2,
             s.vcnt, s.off, s.trace⟩ := by
          simp [levelStep, hc3, hc2, hc1]
        have hw : levelWeight (pointsAbove s.h1 s.h2 s.h3 h) = 0 := by
          simp [levelWeight, hc3, hc2, hc1]
        refine ⟨fun x => ?_, ?_, ?_, ?_, fun v0 hoff hok => ?_⟩
        · rw [he]
          exact reorder3_pointsAbove s.h1 s.h2 s.h3 h x
        · rw [he, hw]
          rfl
        · rw [he, hw]
          rfl
        · rw [he, hw]
          rfl
        · rw [he]
          exact hok

/-- Folding the slicer over any list of levels, starting from a state whose
heights classify like the original triangle: the final counters all advance
by the summed level weights, and safety is preserved. -/
theorem meandering_fold_spec (h1 h2 h3 : ℚ) (ls : List ℚ) (s : SState)
    (hinv : ∀ x, pointsAbove s.h1 s.h2 s.h3 x = pointsAbove h1 h2 h3 x) :
    (∀ x, pointsAbove (ls.foldl levelStep s).h1 (ls.foldl levelStep s).h2
        (ls.foldl levelStep s).h3 x = pointsAbove h1 h2 h3 x) ∧
      (ls.foldl levelStep s).vcnt = s.vcnt +
        (ls.map fun x => levelWeight (pointsAbove h1 h2 h3 x)).sum ∧
      (ls.foldl levelStep s).off = s.off +
        (ls.map fun x => levelWeight (pointsAbove h1 h2 h3 x)).sum ∧
      vertsIn (ls.foldl levelStep s).trace = vertsIn s.trace +
        (ls.map fun x => levelWeight (pointsAbove h1 h2 h3 x)).sum ∧
      (∀ v0 : ℕ, s.off = v0 + vertsIn s.trace → traceOK v0 s.trace = true →
        traceOK v0 ((ls.foldl levelStep s).trace) = true) := by
  induction ls generalizing s with
  | nil =>
      exact ⟨hinv, by simp, by simp, by simp, fun v0 _ hok => hok⟩
  | cons l t ih =>
      have hstep := levelStep_spec s l
      have hinv' : ∀ x, pointsAbove (levelStep s l).h1 (levelStep s l).h2
          (levelStep s l).h3 x = pointsAbove h1 h2 h3 x :=
        fun x => (hstep.1 x).trans (hinv x)
      have hIH := ih (levelStep s l) hinv'
      have hw : levelWeight (pointsAbove s.h1 s.h2 s.h3 l) =
          levelWeight (pointsAbove h1 h2 h3 l) := by rw [hinv l]
      have hfold : (l :: t).foldl levelStep s = t.foldl levelStep (levelStep s l) :=
        rfl
      rw [hfold]
      refine ⟨hIH.1, ?_, ?_, ?_, ?_⟩
      · rw [hIH.2.1, hstep.2.1, hw]
        simp [List.map_cons]
        omega
      · rw [hIH.2.2.1, hstep.2.2.1, hw]
        simp [List.map_cons]
        omega
      · rw [hIH.2.2.2.1, hstep.2.2.2.1, hw]
        simp [List.map_cons]
        omega
      · intro v0 hoff hok
        have hok' : traceOK v0 (levelStep s l).trace = true :=
          hstep.2.2.2.2 v0 hoff hok
        have hoff' : (levelStep s l).off = v0 + vertsIn (levelStep s l).trace := by
          rw [hstep.2.2.1, hstep.2.2.2.1, hoff]
          omega
        exact hIH.2.2.2.2 v0 hoff' hok'

/-- Summed level weights count the levels by classification. -/
theorem weightSum_counts (p : ℚ → ℕ) (ls : List ℚ) :
    (ls.map fun x => levelWeight (p x)).sum =
      3 * ls.countP (fun x => decide (p x = 3)) +
        8 * ls.countP (fun x => decide (p x = 2)) +
        7 * ls.countP (fun x => decide (p x = 1)) := by
  induction ls with
  | nil => simp
  | cons l t ih =>
      simp only [List.map_cons, List.sum_cons, List.countP_cons, ih]
      by_cases e3 : p l = 3
      · simp [levelWeight, e3]
        omega
      · by_cases e2 : p l = 2
        · simp [levelWeight, e3, e2]
          omega
        · by_cases e1 : p l = 1
          · simp [levelWeight, e3, e2, e1]
            omega
          · simp [levelWeight, e3, e2, e1]

/-- A safe trace is prefix-safe: at every point of the trace, every index
already appended refers to a record already appended. -/
theorem traceOK_prefix (pre post : List MOp) (v : ℕ)
    (hok : traceOK v (pre ++ post) = true) :
    ∀ i ∈ idxList pre, i < v + vertsIn pre := by
  induction pre generalizing v with
  | nil => simp [idxList]
  | cons op t ih =>
      cases op with
      | pushVerts n =>
          have hok' : traceOK (v + n) (t ++ post) = true := hok
          intro i hi
          have hi' : i ∈ idxList t := hi
          have hlt := ih (v + n) hok' i hi'
          show i < v + (n + vertsIn t)
          omega
      | pushIdx j =>
          have hok2 : (decide (j < v) && traceOK v (t ++ post)) = true := hok
          rw [Bool.and_eq_true, decide_eq_true_eq] at hok2
          intro i hi
          rcases List.mem_cons.mp hi with hij | hit
          · subst hij
            show i < v + vertsIn t
            omega
          · exact ih v hok2.2 i hit

/-- C3: the value returned by one slicing pass equals the number of vertex
records appended to the vertex stream during the pass, and both equal
`3*C3 + 8*C2 + 7*C1` where `Ck` is the number of visited levels classified
`k`-above (0-above levels contribute nothing). -/
theorem meandering_vertex_count_formula (h1 h2 h3 : ℚ) (off0 : ℕ) :
    meanderingCount h1 h2 h3 off0 =
        vertsIn (meanderingRun h1 h2 h3 off0).trace ∧
      meanderingCount h1 h2 h3 off0 =
        3 * countLevels h1 h2 h3 3 + 8 * countLevels h1 h2 h3 2 +
          7 * countLevels h1 h2 h3 1 := by
  have hfold := meandering_fold_spec h1 h2 h3 (levels h1 h2 h3)
    ⟨h1, h2, h3, 0, off0, []⟩ (fun _ => rfl)
  constructor
  · show ((levels h1 h2 h3).foldl levelStep ⟨h1, h2, h3, 0, off0, []⟩).vcnt =
      vertsIn ((levels h1 h2 h3).foldl levelStep ⟨h1, h2, h3, 0, off0, []⟩).trace
    rw [hfold.2.1, hfold.2.2.2.1]
    rfl
  · show ((levels h1 h2 h3).foldl levelStep ⟨h1, h2, h3, 0, off0, []⟩).vcnt = _
    rw [hfold.2.1]
    rw [Nat.zero_add]
    exact weightSum_counts (fun x => pointsAbove h1 h2 h3 x) (levels h1 h2 h3)

/-- C4: when the slicer is called with an index offset equal to the number
of vertex records already present, the produced trace is safe — each index
is appended only after the records it refers to — and hence at every
point of the pass every already-appended index is strictly below the
current record count. -/
theorem meandering_index_invariant (h1 h2 h3 : ℚ) (v0 : ℕ) :
    traceOK v0 (meanderingRun h1 h2 h3 v0).trace = true ∧
      ∀ pre post : List MOp,
        (meanderingRun h1 h2 h3 v0).trace = pre ++ post →
        ∀ i ∈ idxList pre, i < v0 + vertsIn pre := by
  have hfold := meandering_fold_spec h1 h2 h3 (levels h1 h2 h3)
    ⟨h1, h2, h3, 0, v0, []⟩ (fun _ => rfl)
  have hok : traceOK v0 (meanderingRun h1 h2 h3 v0).trace = true :=
    hfold.2.2.2.2 v0 rfl rfl
  refine ⟨hok, fun pre post heq i hi => ?_⟩
  refine traceOK_prefix pre post v0 ?_ i hi
  rw [← heq]
  exact hok

/-- Witness for `meandering_index_invariant` at heights
`(0.2, 0.3, 0.3)` with offset `0`: index `0` appears in the index stream
and is below the final record count. -/
theorem meandering_index_invariant_witness :
    (0 : ℕ) < 0 + vertsIn (meanderingRun (1/5) (3/10) (3/10) 0).trace := by
  have htr : (meanderingRun (1/5) (3/10) (3/10) 0).trace =
      addStepRoofOps 0 ++ addStepWallOps 4 ++
        (addStepRoofOps 8 ++ addStepWallOps 12) := by
    rw [meanderingRun, show levels (1/5) (3/10) (3/10) = [1/5, 1/4, 3/10, 7/20] by
      norm_num [levels, levelsLow, levelsHigh, arange, pyInt]
      rw [show ((4:ℤ).toNat) = 4 from rfl, show List.range 4 = [0, 1, 2, 3] from rfl]
      norm_num]
    norm_num [levelStep, pointsAbove, aboveList, reorder3, List.filter_cons]
  refine (meandering_index_invariant (1/5) (3/10) (3/10) 0).2
    ((meanderingRun (1/5) (3/10) (3/10) 0).trace) [] (List.append_nil _).symm 0 ?_
  rw [htr]
  simp [idxList, addStepRoofOps, addStepWallOps]

/-- Truncation toward zero is monotone. -/
theorem pyInt_mono : Monotone pyInt := by
  intro a b hab
  unfold pyInt
  by_cases ha : 0 ≤ a
  · rw [if_pos ha, if_pos (le_trans ha hab)]
    exact Int.floor_mono hab
  · by_cases hb : 0 ≤ b
    · rw [if_neg ha, if_pos hb]
      have hc : ⌈a⌉ ≤ (0 : ℤ) := Int.ceil_le.mpr (by exact_mod_cast le_of_not_le ha)
      have hf : (0 : ℤ) ≤ ⌊b⌋ := Int.floor_nonneg.mpr hb
      omega
    · rw [if_neg ha, if_neg hb]
      exact Int.ceil_mono hab

/-- The visited levels in closed form: an arithmetic progression of
`2*(hmax - hmin) + 2` terms starting at `hmin/10` with step `1/20`, where
`hmin`, `hmax` are the min and max of the truncated scaled heights. -/
theorem levels_eq (h1 h2 h3 : ℚ) :
    levels h1 h2 h3 =
      (List.range (2 * (levelsHigh h1 h2 h3 - levelsLow h1 h2 h3).toNat
          + 2)).map
        fun k : ℕ =>
          (levelsLow h1 h2 h3 : ℚ) / 10 + (k : ℚ) * (1/20) := by
  unfold levels arange
  have hmM : levelsLow h1 h2 h3 ≤ levelsHigh h1 h2 h3 := by
    have l1 : levelsLow h1 h2 h3 ≤ pyInt (h1 * 10) := min_le_left _ _
    have l2 : pyInt (h1 * 10) ≤ levelsHigh h1 h2 h3 := le_max_left _ _
    exact le_trans l1 l2
  have hceil :
      ⌈(((levelsHigh h1 h2 h3 : ℚ) + 1) - (levelsLow h1 h2 h3 : ℚ)) / (1/2)⌉ =
        2 * (levelsHigh h1 h2 h3 - levelsLow h1 h2 h3) + 2 := by
    have hq : (((levelsHigh h1 h2 h3 : ℚ) + 1) - (levelsLow h1 h2 h3 : ℚ)) /
        (1/2) =
        ((2 * (levelsHigh h1 h2 h3 - levelsLow h1 h2 h3) + 2 : ℤ) : ℚ) := by
      push_cast
      ring
    rw [hq, Int.ceil_intCast]
  rw [hceil]
  have htn : (2 * (levelsHigh h1 h2 h3 - levelsLow h1 h2 h3) + 2).toNat =
      2 * (levelsHigh h1 h2 h3 - levelsLow h1 h2 h3).toNat + 2 := by omega
  rw [htn, List.map_map]
  refine List.map_congr_left fun k _ => ?_
  show ((levelsLow h1 h2 h3 : ℚ) + (k : ℚ) * (1/2)) * (1/10) =
    (levelsLow h1 h2 h3 : ℚ) / 10 + (k : ℚ) * (1/20)
  ring

/-- An arithmetic progression with positive step is strictly ascending. -/
theorem arithmap_chain (a d : ℚ) (hd : 0 < d) (n : ℕ) :
    List.Chain' (· < ·)
      ((List.range n).map fun k : ℕ => a + (k : ℚ) * d) := by
  rw [List.chain'_map]
  cases n with
  | zero => simp
  | succ n =>
      rw [List.chain'_range_succ]
      intro i _
      have hc : ((i : ℚ) + 1) * d - (i : ℚ) * d = d := by ring
      push_cast
      linarith

/-- Consecutive members of the progression differ by the step. -/
theorem arithmap_spacing (a d : ℚ) (n : ℕ) (i : ℕ) (x y : ℚ)
    (hx : ((List.range n).map fun k : ℕ => a + (k : ℚ) * d)[i]? = some x)
    (hy : ((List.range n).map fun k : ℕ => a + (k : ℚ) * d)[i+1]? = some y) :
    y = x + d := by
  have hi1 : i + 1 < n := by
    by_contra hc
    rw [List.getElem?_map] at hy
    have hnone : (List.range n)[i+1]? = none := by
      rw [List.getElem?_eq_none]
      simpa using le_of_not_lt hc
    rw [hnone] at hy
    simp at hy
  have hi : i < n := Nat.lt_of_succ_lt hi1
  rw [List.getElem?_map, List.getElem?_range hi] at hx
  rw [List.getElem?_map, List.getElem?_range hi1] at hy
  simp only [Option.map_some', Option.some.injEq] at hx hy
  rw [← hx, ← hy]
  push_cast
  ring

/-- Truncation of ten times the minimum height is the minimum of the
truncated scaled heights (`int(h*10)` is monotone), and dually for max. -/
theorem pyInt_ten_min_max (h1 h2 h3 : ℚ) :
    pyInt (min h1 (min h2 h3) * 10) = levelsLow h1 h2 h3 ∧
      pyInt (max h1 (max h2 h3) * 10) = levelsHigh h1 h2 h3 := by
  have hg : Monotone fun q : ℚ => pyInt (q * 10) := by
    intro a b hab
    exact pyInt_mono (mul_le_mul_of_nonneg_right hab (by norm_num))
  constructor
  · have e1 : pyInt ((min h2 h3) * 10) = min (pyInt (h2 * 10)) (pyInt (h3 * 10)) :=
      hg.map_min
    have e2 : pyInt ((min h1 (min h2 h3)) * 10) =
        min (pyInt (h1 * 10)) (pyInt ((min h2 h3) * 10)) := hg.map_min
    rw [e2, e1]
    rfl
  · have e1 : pyInt ((max h2 h3) * 10) = max (pyInt (h2 * 10)) (pyInt (h3 * 10)) :=
      hg.map_max
    have e2 : pyInt ((max h1 (max h2 h3)) * 10) =
        max (pyInt (h1 * 10)) (pyInt ((max h2 h3) * 10)) := hg.map_max
    rw [e2, e1]
    rfl

/-- First member of a nonempty progression. -/
theorem arithmap_head (a d : ℚ) (n : ℕ) :
    ((List.range (n + 1)).map fun k : ℕ => a + (k : ℚ) * d).head? =
      some a := by
  rw [List.range_succ_eq_map]
  simp

/-- Last member of the progression. -/
theorem arithmap_last (a d : ℚ) (n : ℕ) :
    ((List.range (n + 1)).map fun k : ℕ => a + (k : ℚ) * d).getLast? =
      some (a + (n : ℚ) * d) := by
  rw [List.getLast?_eq_getElem?]
  rw [List.length_map, List.length_range]
  have hlen : n + 1 - 1 = n := rfl
  rw [hlen, List.getElem?_map, List.getElem?_range (Nat.lt_succ_self n)]
  simp

/-- C1, counterexample: for the degenerate triangle with all heights
`-0.15`, Python `int()` truncates `-1.5` to `-1` (not to `floor = -2`) and
the `np.arange(h_min, h_max + 1, 0.5)` loop runs one extra half step past
`h_max`, so the visited levels are `[-0.1, -0.05]` while the claim's span
`[floor(10*h_min)/10 .. floor(10*h_max)/10]` is the single level
`[-0.2]`. -/
theorem levels_span_counterexample :
    levels (-3/20) (-3/20) (-3/20) = [-1/10, -1/20] ∧
      claimedLevels (-3/20) (-3/20) (-3/20) = [-1/5] ∧
      levels (-3/20) (-3/20) (-3/20) ≠
        claimedLevels (-3/20) (-3/20) (-3/20) := by
  have hceil : (⌈-((3 : ℚ)/2)⌉ : ℤ) = -1 := by
    rw [Int.ceil_eq_iff]
    constructor <;> norm_num
  have h1 : levels (-3/20) (-3/20) (-3/20) = [-1/10, -1/20] := by
    rw [levels, levelsLow, levelsHigh]
    norm_num [pyInt, arange]
    rw [hceil]
    norm_num
    rw [show ((2:ℤ).toNat) = 2 from rfl, show List.range 2 = [0, 1] from rfl]
    norm_num
  have h2 : claimedLevels (-3/20) (-3/20) (-3/20) = [-1/5] := by
    rw [claimedLevels]
    have hfloor : (⌊(10 : ℚ) * (-3/20)⌋ : ℤ) = -2 := by
      rw [Int.floor_eq_iff]
      constructor <;> norm_num
    norm_num [hfloor]
    rw [show List.range 1 = [0] from rfl]
    norm_num
  refine ⟨h1, h2, ?_⟩
  rw [h1, h2]
  simp

/-- C1 (amended): the slicer visits cutting levels in strictly ascending
order, spaced by exactly `0.05`; the visited levels span the closed
interval from `trunc(10*h_min)/10` to `trunc(10*h_max)/10 + 0.05`
inclusive, where `trunc` is truncation toward zero (Python `int`, equal to
`floor` for nonnegative heights) and `h_min`, `h_max` are the least and
greatest vertex heights. -/
theorem levels_ascending_spacing_span (h1 h2 h3 : ℚ) :
    List.Chain' (· < ·) (levels h1 h2 h3) ∧
      (∀ (i : ℕ) (x y : ℚ), (levels h1 h2 h3)[i]? = some x →
        (levels h1 h2 h3)[i+1]? = some y → y = x + 1/20) ∧
      (levels h1 h2 h3).head? =
        some ((pyInt (min h1 (min h2 h3) * 10) : ℚ) / 10) ∧
      (levels h1 h2 h3).getLast? =
        some ((pyInt (max h1 (max h2 h3) * 10) : ℚ) / 10 + 1/20) := by
  obtain ⟨hlo, hhi⟩ := pyInt_ten_min_max h1 h2 h3
  have hmM : levelsLow h1 h2 h3 ≤ levelsHigh h1 h2 h3 := by
    have l1 : levelsLow h1 h2 h3 ≤ pyInt (h1 * 10) := min_le_left _ _
    have l2 : pyInt (h1 * 10) ≤ levelsHigh h1 h2 h3 := le_max_left _ _
    exact le_trans l1 l2
  have hk : (((levelsHigh h1 h2 h3 - levelsLow h1 h2 h3).toNat : ℕ) : ℚ) =
      (levelsHigh h1 h2 h3 : ℚ) - (levelsLow h1 h2 h3 : ℚ) := by
    have hz : (((levelsHigh h1 h2 h3 - levelsLow h1 h2 h3).toNat : ℕ) : ℤ) =
        levelsHigh h1 h2 h3 - levelsLow h1 h2 h3 :=
      Int.toNat_of_nonneg (sub_nonneg.mpr hmM)
    exact_mod_cast hz
  have hsucc : 2 * (levelsHigh h1 h2 h3 - levelsLow h1 h2 h3).toNat + 2 =
      (2 * (levelsHigh h1 h2 h3 - levelsLow h1 h2 h3).toNat + 1) + 1 := rfl
  refine ⟨?_, ?_, ?_, ?_⟩
  · rw [levels_eq]
    exact arithmap_chain _ _ (by norm_num) _
  · intro i x y hx hy
    rw [levels_eq] at hx hy
    exact arithmap_spacing _ _ _ i x y hx hy
  · rw [levels_eq, hsucc, arithmap_head, hlo]
  · rw [levels_eq, hsucc, arithmap_last, hhi]
    congr 1
    push_cast [hk]
    ring

/-- Witness for `levels_ascending_spacing_span` at heights `(0, 0, 0)`:
the levels are `[0, 0.05]`; the head is as stated and consecutive levels
differ by `0.05`. -/
theorem levels_ascending_spacing_span_witness :
    (levels 0 0 0).head? = some ((pyInt (min 0 (min 0 0) * 10) : ℚ) / 10) ∧
      (1 : ℚ)/20 = 0 + 1/20 := by
  have hlv : levels 0 0 0 = [0, 1/20] := by
    rw [levels, levelsLow, levelsHigh]
    norm_num [pyInt, arange]
    rw [show ((2:ℤ).toNat) = 2 from rfl, show List.range 2 = [0, 1] from rfl]
    norm_num
  refine ⟨(levels_ascending_spacing_span 0 0 0).2.2.1, ?_⟩
  refine (levels_ascending_spacing_span 0 0 0).2.1 0 0 (1/20) ?_ ?_
  · rw [hlv]
    rfl
  · rw [hlv]
    rfl

/-- C5: for every theme — monotone or not — `color(z)` is total: every
scalar `z` maps to the color of a unique band index in 1-6, namely the
first layer whose threshold is at least `z` (boundary inclusive), or the
unbounded sixth layer when `z` exceeds every finite threshold; and for any
theme whose five finite thresholds are strictly increasing, the band index
is monotone in `z`. -/
theorem theme_color_total_monotone (th : Theme) :
    (∀ z : ℚ, (1 ≤ th.colorIdx z ∧ th.colorIdx z ≤ 6) ∧
      th.color z = th.layerColor (th.colorIdx z) ∧
      (∀ i : ℕ, 1 ≤ i → i < th.colorIdx z → th.thresh i < z) ∧
      (th.colorIdx z ≤ 5 → z ≤ th.thresh (th.colorIdx z))) ∧
    (ThresholdsMono th → ∀ z1 z2 : ℚ, z1 ≤ z2 →
      th.colorIdx z1 ≤ th.colorIdx z2) := by
  constructor
  · intro z
    refine ⟨?_, ?_, ?_, ?_⟩
    · unfold Theme.colorIdx
      split_ifs <;> omega
    · unfold Theme.color Theme.colorIdx
      split_ifs <;> rfl
    · unfold Theme.colorIdx
      split_ifs with a1 a2 a3 a4 a5 <;> intro i hi1 hik <;>
        interval_cases i <;> simp only [Theme.thresh] <;> linarith
    · unfold Theme.colorIdx
      split_ifs with a1 a2 a3 a4 a5 <;> intro h5
      · exact a1
      · exact a2
      · exact a3
      · exact a4
      · exact a5
      · omega
  · intro _hmono z1 z2 hz
    unfold Theme.colorIdx
    split_ifs <;> first | omega | linarith

/-- Witness for `theme_color_total_monotone` on the Mountain theme:
totality at `z = 0.7` and, its thresholds being strictly increasing,
monotonicity at `0.7 ≤ 0.8`. -/
theorem theme_color_total_monotone_witness :
    (1 ≤ mountainTheme.colorIdx (7/10) ∧ mountainTheme.colorIdx (7/10) ≤ 6) ∧
      mountainTheme.colorIdx (7/10) ≤ mountainTheme.colorIdx (8/10) := by
  have hm : ThresholdsMono mountainTheme := by
    norm_num [ThresholdsMono, mountainTheme, mkTheme]
  exact ⟨((theme_color_total_monotone mountainTheme).1 (7/10)).1,
    (theme_color_total_monotone mountainTheme).2 hm (7/10) (8/10)
      (by norm_num)⟩

/-- C6, counterexample: a theme whose thresholds are strictly decreasing is
constructed without any error — its thresholds are stored as given, not
strictly increasing, and `color` happily evaluates on it — so construction
does not fail fast on a non-monotone configuration. -/
theorem theme_construction_no_validation_counterexample :
    ¬ ThresholdsMono badTheme ∧ badTheme.t1 = 9/10 ∧
      badTheme.color (95/100) = badTheme.c6 := by
  refine ⟨?_, ?_, ?_⟩
  · norm_num [ThresholdsMono, badTheme, mkTheme]
  · norm_num [badTheme, mkTheme]
  · norm_num [badTheme, mkTheme, Theme.color]

/-- C6 (amended): theme construction performs no validation: any six layers
are accepted, thresholds are stored unchanged (only the colors are
normalized), no configuration error exists, and `color` remains total on
every constructed theme, monotone or not. -/
theorem theme_construction_no_validation (l1 l2 l3 l4 l5 : RawLayer)
    (rgba6 : ℤ × ℤ × ℤ × ℤ) :
    (mkTheme l1 l2 l3 l4 l5 rgba6).t1 = l1.threshold ∧
      (mkTheme l1 l2 l3 l4 l5 rgba6).t2 = l2.threshold ∧
      (mkTheme l1 l2 l3 l4 l5 rgba6).t3 = l3.threshold ∧
      (mkTheme l1 l2 l3 l4 l5 rgba6).t4 = l4.threshold ∧
      (mkTheme l1 l2 l3 l4 l5 rgba6).t5 = l5.threshold ∧
      ∀ z : ℚ, 1 ≤ (mkTheme l1 l2 l3 l4 l5 rgba6).colorIdx z ∧
        (mkTheme l1 l2 l3 l4 l5 rgba6).colorIdx z ≤ 6 := by
  refine ⟨rfl, rfl, rfl, rfl, rfl, fun z => ?_⟩
  unfold Theme.colorIdx
  split_ifs <;> omega

/-- C8, counterexample: in the spherical embedding a wall quad's emitted
normals all equal the averaged cross-product quad normal; for the wall quad
`(0,0,0), (1,0,0), (1,0,1), (0,0,1)` that normal is `(0,1,0)`, while the
normalized direction of the vertex `(1,0,0)` is `(1,0,0)` — the wall normal
is not derived from the vertex's unscaled direction vector. -/
theorem spherical_wall_normal_counterexample :
    ((sphQuadRecords ⟨0, 0, 0⟩ ⟨1, 0, 0⟩ ⟨1, 0, 1⟩ ⟨0, 0, 1⟩ 1 true).map
        Prod.snd) =
      [⟨0, 1, 0⟩, ⟨0, 1, 0⟩, ⟨0, 1, 0⟩, ⟨0, 1, 0⟩] ∧
      (V3.mk 1 0 0).normalized = ⟨1, 0, 0⟩ ∧
      V3.mk 0 1 0 ≠ V3.mk 1 0 0 := by
  have hq : calcQuadNormal ⟨0, 0, 0⟩ ⟨1, 0, 0⟩ ⟨1, 0, 1⟩ ⟨0, 0, 1⟩ =
      ⟨0, 1, 0⟩ := by
    norm_num [calcQuadNormal, V3.sub, V3.cross, V3.add, V3.smul,
      V3.normalized, V3.len, ratSqrt, Nat.sqrt_one]
  refine ⟨?_, ?_, ?_⟩
  · simp [sphQuadRecords, hq]
  · norm_num [V3.normalized, V3.len, ratSqrt, Nat.sqrt_one]
  · simp only [ne_eq, V3.mk.injEq]
    norm_num

/-- C8 (amended): in the spherical embedding, roof triangles and roof quads
derive each emitted vertex's normal from the vertex's unscaled direction
(`vert.normalized()`); wall quads instead use the averaged cross-product
quad normal, exactly as the flat embedding's walls do. -/
theorem spherical_normal_policy (v0 v1 v2 v3 : V3) (scale : ℚ) :
    (sphTriangleRecords v0 v1 v2 scale).map Prod.snd =
        [v0.normalized, v1.normalized, v2.normalized] ∧
      (sphQuadRecords v0 v1 v2 v3 scale false).map Prod.snd =
        [v0.normalized, v1.normalized, v2.normalized, v3.normalized] ∧
      (sphQuadRecords v0 v1 v2 v3 scale true).map Prod.snd =
        List.replicate 4 (calcQuadNormal v0 v1 v2 v3) ∧
      (sphQuadRecords v0 v1 v2 v3 scale true).map Prod.snd =
        (flatQuadRecords v0 v1 v2 v3 true).map Prod.snd := by
  refine ⟨rfl, rfl, rfl, rfl⟩

/-- C10: constructing a flat or spherical terrain with a theme name whose
lowercasing is not a registered key does not raise: the registry lookup
returns `None`, the stored theme is `None`, and only a later use of the
theme (`get_color`) fails. -/
theorem unregistered_theme_deferred (s : String)
    (hs : pyLower s ∉ (["mountain", "snow", "desert", "island"] : List String)) :
    flatInitTheme s = none ∧ sphericalInitTheme s = none ∧
      ∀ z : ℚ, getColorOpt (flatInitTheme s) z = none := by
  have hb : ∀ k : String, k ∈ (["mountain", "snow", "desert", "island"] :
      List String) → (k == pyLower s) = false := by
    intro k hk
    rw [beq_eq_false_iff_ne]
    intro e
    exact hs (e ▸ hk)
  have hget : themesGet (pyLower s) = none := by
    unfold themesGet themesRegistry
    rw [List.find?_cons_of_neg, List.find?_cons_of_neg,
      List.find?_cons_of_neg, List.find?_cons_of_neg, List.find?_nil]
    · rfl
    · simp [hb "island" (by simp)]
    · simp [hb "desert" (by simp)]
    · simp [hb "snow" (by simp)]
    · simp [hb "mountain" (by simp)]
  refine ⟨hget, hget, fun z => ?_⟩
  show getColorOpt (themesGet (pyLower s)) z = none
  rw [hget]
  rfl

/-- Witness for `unregistered_theme_deferred` with the unregistered name
`"ocean"`. -/
theorem unregistered_theme_deferred_witness :
    flatInitTheme "ocean" = none ∧ sphericalInitTheme "ocean" = none :=
  ⟨(unregistered_theme_deferred "ocean" (by decide)).1,
    (unregistered_theme_deferred "ocean" (by decide)).2.1⟩
